import Mathlib

/-!
Verification of the TypeSafeEventEmitter dispatch engine
(src/TypeSafeEventEmitter.ts) against its natural-language specification.

The emitter's registry is shallowly embedded: JS Sets become duplicate-free
insertion-ordered lists, the string-keyed listener object becomes an
association list with unique keys, and listener functions are defunctionalised
into identifiers whose behaviour (registry mutations performed during the
call, plus an optional thrown value) is given by an environment.  `emit` is
fuel-indexed because the source's recursive `error` re-emission has no depth
guard: a result of `none` for every fuel exhibits a run that never returns.
Every invocation is recorded in a log entry carrying the listener id, the
argument it received and the re-emission depth at which it was invoked
(depth 0 = the root `emit` call, depth k+1 = inside an `error` re-emission
triggered at depth k).
-/

namespace EmitterSpec

/-- A JavaScript value as far as the dispatcher observes it: numbers and
strings as ordinary payloads, `verr` for an `Error` object (content is its
message), `vundef` for an omitted payload. -/
inductive JsVal where
  | vnum (n : Nat)
  | vstr (s : String)
  | verr (msg : String)
  | vundef
deriving DecidableEq, Repr

/-- The `err instanceof Error` test of the source. -/
def isError : JsVal → Bool
  | .verr _ => true
  | _ => false

/-- The value re-emitted when a category listener throws `v`:
`err instanceof Error ? err : new Error('An error occurred in a listener.')`
(TypeSafeEventEmitter.ts line 113). -/
def wrapCat (v : JsVal) : JsVal :=
  if isError v then v else .verr "An error occurred in a listener."

/-- The value re-emitted when a wildcard listener throws `v`
(TypeSafeEventEmitter.ts line 126). -/
def wrapWild (v : JsVal) : JsVal :=
  if isError v then v else .verr "An error occurred in a wildcard listener."

/-- The registry: `listeners` (a string-keyed object of JS Sets) as an
association list with unique keys, `wildcardListeners` as a separate list.
A JS Set is a duplicate-free list in insertion order. -/
structure St where
  cats : List (String × List Nat)
  wild : List Nat
deriving DecidableEq, Repr

def emptySt : St := ⟨[], []⟩

/-- `Set.add`: appends unless already present (JS Set semantics). -/
def addUnique (l : List Nat) (x : Nat) : List Nat :=
  if x ∈ l then l else l ++ [x]

/-- Add `x` to the set stored under key `c`, creating the key if absent
(the `if (!this.listeners[eventName]) … new Set()` path of `on'`). -/
def catsAdd : List (String × List Nat) → String → Nat → List (String × List Nat)
  | [], c, x => [(c, [x])]
  | (k, s) :: rest, c, x =>
    if k = c then (k, addUnique s x) :: rest else (k, s) :: catsAdd rest c x

/-- `Set.delete` on the set stored under key `c`; no-op when the key is
absent (the `if (eventListeners)` guard of `off`). -/
def catsDel : List (String × List Nat) → String → Nat → List (String × List Nat)
  | [], _, _ => []
  | (k, s) :: rest, c, x =>
    if k = c then (k, s.erase x) :: rest else (k, s) :: catsDel rest c x

/-- Key lookup in the association list, reading the empty set for an absent
key. -/
def lookupIn (cs : List (String × List Nat)) (c : String) : List Nat :=
  match cs.find? (fun e => e.1 == c) with
  | some e => e.2
  | none => []

/-- `this.listeners[eventName]`, reading the empty set for an absent key
(observationally what the source's `undefined` checks amount to). -/
def lookupCat (st : St) (c : String) : List Nat :=
  lookupIn st.cats c

/-- `on(eventName, listener)`: wildcard registrations go to the separate
wildcard set, others into the per-category set (source lines 48-58). -/
def on' (c : String) (x : Nat) (st : St) : St :=
  if c = "*" then { st with wild := addUnique st.wild x }
  else { st with cats := catsAdd st.cats c x }

/-- `off(eventName, listener)` (source lines 83-93). -/
def off (c : String) (x : Nat) (st : St) : St :=
  if c = "*" then { st with wild := st.wild.erase x }
  else { st with cats := catsDel st.cats c x }

/-- `once(eventName, listener)` registers the fresh wrapper function under
the category (source lines 67-76); the wrapper's behaviour (call the inner
listener, then remove itself) lives in the behaviour environment. -/
def once (c : String) (wrapperId : Nat) (st : St) : St :=
  on' c wrapperId st

/-- `getListenerCount` (source lines 137-142): wildcard set size for `*`,
else `this.listeners[eventName]?.size || 0`. -/
def getListenerCount (c : String) (st : St) : Nat :=
  if c = "*" then st.wild.length else (lookupCat st c).length

/-- `removeAllListeners(eventName?)` (source lines 147-159).  The source
guards with JS truthiness, `if (eventName)`, which is false both for an
omitted argument and for the empty string, so `some ""` clears the whole
registry exactly like `none`. -/
def removeAllListeners (ev : Option String) (st : St) : St :=
  match ev with
  | some c =>
    if c = "" then { cats := [], wild := [] }
    else if c = "*" then { st with wild := [] }
    else { st with cats := st.cats.filter (fun e => !(e.1 == c)) }
  | none => { cats := [], wild := [] }

/-- A registry mutation a listener may perform during its own invocation:
a call to `on'` or `off` on the same dispatcher. -/
inductive RegOp where
  | ron (c : String) (x : Nat)
  | roff (c : String) (x : Nat)
deriving DecidableEq, Repr

def applyOp (st : St) : RegOp → St
  | .ron c x => on' c x st
  | .roff c x => off c x st

def applyOps (ops : List RegOp) (st : St) : St :=
  ops.foldl applyOp st

/-- The body of an ordinary listener function: the registry mutations it
performs, then an optional thrown value. -/
structure PlainB where
  ops : List RegOp
  thrown : Option JsVal
deriving DecidableEq, Repr

/-- A listener function is either a plain body or the `onceWrapper` closure
built by `once` (source lines 69-72): it calls the captured inner listener
and, only if that call returned normally, removes itself via
`this.off(eventName, onceWrapper)` — a throw skips the removal. -/
inductive Behavior where
  | plain (b : PlainB)
  | onceWrapper (cat : String) (innerId : Nat) (inner : PlainB)
deriving DecidableEq, Repr

/-- The behaviour environment: which function each listener id denotes. -/
def Env := Nat → Behavior

/-- What a listener call received: a bare payload (category listener) or the
`\x7b event, payload \x7d` pair (wildcard listener). -/
inductive Arg where
  | catArg (p : JsVal)
  | wildArg (ev : String) (p : JsVal)
deriving DecidableEq, Repr

/-- One recorded listener invocation: who was called, with what, and at
which `error` re-emission depth. -/
structure Entry where
  id : Nat
  arg : Arg
  depth : Nat
deriving DecidableEq, Repr

/-- Call listener `x` with argument `arg` at depth `d` in state `st`:
the invocation entries it generates, the value it throws (if any), and the
registry state it leaves behind. -/
def invoke (env : Env) (d : Nat) (arg : Arg) (x : Nat) (st : St) :
    List Entry × Option JsVal × St :=
  match env x with
  | .plain b => ([⟨x, arg, d⟩], b.thrown, applyOps b.ops st)
  | .onceWrapper c _innerId inner =>
    let st1 := applyOps inner.ops st
    match inner.thrown with
    | none => ([⟨x, arg, d⟩, ⟨_innerId, arg, d⟩], none, off c x st1)
    | some v => ([⟨x, arg, d⟩, ⟨_innerId, arg, d⟩], some v, st1)

/-- One `forEach` loop of `emit` over a snapshot `ids`: each listener is
invoked inside `try`; a thrown value is wrapped and handed to `emitE` (the
recursive `this.emit('error', …)` at the next depth).  A first component of
`none` means the nested re-emission never returned (fuel ran out), so the
loop — like the source — never reaches the remaining listeners. -/
def phase (env : Env) (emitE : St → JsVal → Option St × List Entry)
    (wrap : JsVal → JsVal) (arg : Arg) (d : Nat) :
    List Nat → St → Option St × List Entry
  | [], st => (some st, [])
  | x :: rest, st =>
    match invoke env d arg x st with
    | (es, none, st1) =>
      ((phase env emitE wrap arg d rest st1).1,
        es ++ (phase env emitE wrap arg d rest st1).2)
    | (es, some v, st1) =>
      match emitE st1 (wrap v) with
      | (none, le) => (none, es ++ le)
      | (some st2, le) =>
        ((phase env emitE wrap arg d rest st2).1,
          es ++ le ++ (phase env emitE wrap arg d rest st2).2)

/-- Fuel-indexed `emit` (source lines 101-130).  The category snapshot
`[...eventListeners]` is taken from the state at entry; the wildcard
emptiness test `this.wildcardListeners.size > 0` and the wildcard snapshot
`[...this.wildcardListeners]` read the state only after the category loop
has run.  Fuel bounds the depth of nested `error` re-emissions, which the
source leaves unguarded; `(none, log)` reports the partial log of a run
that exceeded the given depth. -/
def emitF (env : Env) : Nat → Nat → St → String → JsVal → Option St × List Entry
  | 0, _, _, _, _ => (none, [])
  | n + 1, d, st, ev, p =>
    match phase env (fun s v => emitF env n (d + 1) s "error" v)
        wrapCat (.catArg p) d (lookupCat st ev) st with
    | (none, l1) => (none, l1)
    | (some st1, l1) =>
      if st1.wild.length > 0 then
        ((phase env (fun s v => emitF env n (d + 1) s "error" v)
            wrapWild (.wildArg ev p) d st1.wild st1).1,
          l1 ++ (phase env (fun s v => emitF env n (d + 1) s "error" v)
            wrapWild (.wildArg ev p) d st1.wild st1).2)
      else (some st1, l1)

/-- The category loop of `emitF (n+1)` at depth `d`, as a standalone value:
used to name the intermediate state from which the wildcard snapshot is
taken. -/
def catPhase (env : Env) (n d : Nat) (st : St) (ev : String) (p : JsVal) :
    Option St × List Entry :=
  phase env (fun s v => emitF env n (d + 1) s "error" v)
    wrapCat (.catArg p) d (lookupCat st ev) st

/-- The wildcard listeners that receive the emission
`emitF env (n+1) 0 st ev p`: the wildcard set as it stands after the
category loop (empty if that loop never returned). -/
def wildAfter (env : Env) (n : Nat) (st : St) (ev : String) (p : JsVal) :
    List Nat :=
  match (catPhase env n 0 st ev p).1 with
  | some st1 => st1.wild
  | none => []

/-- Every listener the environment maps to a plain (non-wrapper) body. -/
def plainEnv (env : Env) : Prop :=
  ∀ x, ∃ b, env x = Behavior.plain b

/-- `x` is currently registered for `c` (wildcard set for `*`). -/
def registered (c : String) (x : Nat) (st : St) : Prop :=
  if c = "*" then x ∈ st.wild else x ∈ lookupCat st c

/-! ### Concrete dispatcher configurations used as test inputs -/

/-- An `error`-category listener (id 9) that always throws. -/
def envLoop : Env := fun x =>
  if x = 9 then .plain ⟨[], some (.vstr "always fails")⟩ else .plain ⟨[], none⟩

def stLoop : St := ⟨[("error", [9])], []⟩

/-- Category `c` has listeners 1 (throws) and 2; the `error` listener 9
unsubscribes the wildcard listener 7 while handling the fault. -/
def envC1a : Env := fun x =>
  if x = 1 then .plain ⟨[], some (.vstr "boom")⟩
  else if x = 9 then .plain ⟨[.roff "*" 7], none⟩
  else .plain ⟨[], none⟩

/-- Identical to `envC1a` except that listener 1 does not throw. -/
def envC1b : Env := fun x =>
  if x = 1 then .plain ⟨[], none⟩
  else if x = 9 then .plain ⟨[.roff "*" 7], none⟩
  else .plain ⟨[], none⟩

def stC1 : St := ⟨[("c", [1, 2]), ("error", [9])], [7]⟩

/-- Category `c` has listeners 1 (throws) and 2, the `error` listener 9 is
well behaved, and 5 listens on the wildcard. -/
def envIso : Env := fun x =>
  if x = 1 then .plain ⟨[], some (.vstr "boom")⟩ else .plain ⟨[], none⟩

def stIso : St := ⟨[("c", [1, 2]), ("error", [9])], [5]⟩

/-- Listener 1 subscribes the wildcard listener 7 during its own
invocation. -/
def envMutW : Env := fun x =>
  if x = 1 then .plain ⟨[.ron "*" 7], none⟩ else .plain ⟨[], none⟩

def stMutW : St := ⟨[("c", [1])], []⟩

/-- Listener id 10 is the wrapper `once("x", L)` registered for the inner
listener 11, whose invocation throws. -/
def envOnce : Env := fun x =>
  if x = 10 then .onceWrapper "x" 11 ⟨[], some (.vstr "L boom")⟩
  else .plain ⟨[], none⟩

def stOnce : St := once "x" 10 emptySt

/-- Category `z` listener 4 throws the non-Error value 0; 5 subscribes to
`error`. -/
def envFault0 : Env := fun x =>
  if x = 4 then .plain ⟨[], some (.vnum 0)⟩ else .plain ⟨[], none⟩

/-- Identical to `envFault0` except that the thrown non-Error value is 1. -/
def envFault1 : Env := fun x =>
  if x = 4 then .plain ⟨[], some (.vnum 1)⟩ else .plain ⟨[], none⟩

def stFault : St := ⟨[("z", [4]), ("error", [5])], []⟩

/-- Category `z` listener 4 throws the non-Error value 7; the `error`
listener 5 unsubscribes the wildcard listener 20 while handling a fault
(a no-op when 20 is not subscribed); wildcard listener 20 throws the Error
value `wild boom`; wildcard listener 21 is well behaved. -/
def envFaultB : Env := fun x =>
  if x = 4 then .plain ⟨[], some (.vnum 7)⟩
  else if x = 5 then .plain ⟨[.roff "*" 20], none⟩
  else if x = 20 then .plain ⟨[], some (.verr "wild boom")⟩
  else .plain ⟨[], none⟩

/-- Throwing-category-listener scenario: 4 on `z`, 5 on `error`, wildcard
listener 21. -/
def stC4 : St := ⟨[("z", [4]), ("error", [5])], [21]⟩

/-- Throwing-wildcard-listener scenario: no `z` listeners, 5 on `error`,
wildcard listeners 20 (throws) and 21. -/
def stW4 : St := ⟨[("error", [5])], [20, 21]⟩

/-- Every listener is a plain no-op. -/
def envQuiet : Env := fun _ => .plain ⟨[], none⟩

/-- Two listeners on `ping`, two wildcard listeners. -/
def stPing : St := ⟨[("ping", [1, 2])], [8, 9]⟩

end EmitterSpec

namespace EmitterSpec

/-! ### Registry facts -/

theorem addUnique_mem_self (l : List Nat) (x : Nat) : x ∈ addUnique l x := by
  unfold addUnique
  split
  · assumption
  · simp

theorem addUnique_of_mem {l : List Nat} {x : Nat} (h : x ∈ l) : addUnique l x = l := by
  simp [addUnique, h]

theorem addUnique_nodup {l : List Nat} (x : Nat) (h : l.Nodup) : (addUnique l x).Nodup := by
  unfold addUnique
  split
  · exact h
  · next hx => simp [List.nodup_append, h, hx]

theorem on'_wild_nodup {c : String} {x : Nat} {st : St} (h : st.wild.Nodup) :
    (on' c x st).wild.Nodup := by
  unfold on'
  split
  · exact addUnique_nodup x h
  · exact h

theorem off_wild_nodup {c : String} {x : Nat} {st : St} (h : st.wild.Nodup) :
    (off c x st).wild.Nodup := by
  unfold off
  split
  · exact h.erase x
  · exact h

theorem applyOp_wild_nodup (st : St) (op : RegOp) (h : st.wild.Nodup) :
    (applyOp st op).wild.Nodup := by
  cases op with
  | ron c x => exact on'_wild_nodup h
  | roff c x => exact off_wild_nodup h

theorem applyOps_wild_nodup (ops : List RegOp) :
    ∀ st : St, st.wild.Nodup → (applyOps ops st).wild.Nodup := by
  induction ops with
  | nil => intro st h; exact h
  | cons op rest ih => intro st h; exact ih _ (applyOp_wild_nodup st op h)

/-! ### Facts about a single listener invocation -/

theorem invoke_self_mem (env : Env) (d : Nat) (arg : Arg) (x : Nat) (st : St) :
    (⟨x, arg, d⟩ : Entry) ∈ (invoke env d arg x st).1 := by
  unfold invoke
  cases env x with
  | plain b => simp
  | onceWrapper c i inner =>
    dsimp only
    rcases hth : inner.thrown with _ | v <;> simp [hth]

theorem invoke_entry (env : Env) (d : Nat) (arg : Arg) (x : Nat) (st : St) :
    ∀ e ∈ (invoke env d arg x st).1, e.arg = arg ∧ e.depth = d := by
  unfold invoke
  cases env x with
  | plain b => simp
  | onceWrapper c i inner =>
    dsimp only
    rcases hth : inner.thrown with _ | v <;> simp [hth]

theorem invoke_plain {env : Env} {x : Nat} {b : PlainB} (h : env x = .plain b)
    (d : Nat) (arg : Arg) (st : St) :
    invoke env d arg x st = ([⟨x, arg, d⟩], b.thrown, applyOps b.ops st) := by
  unfold invoke
  rw [h]

theorem invoke_wild_nodup (env : Env) (d : Nat) (arg : Arg) (x : Nat) (st : St)
    (h : st.wild.Nodup) : (invoke env d arg x st).2.2.wild.Nodup := by
  unfold invoke
  cases env x with
  | plain b => exact applyOps_wild_nodup _ _ h
  | onceWrapper c i inner =>
    dsimp only
    rcases hth : inner.thrown with _ | v <;> simp only [hth]
    · exact off_wild_nodup (applyOps_wild_nodup _ _ h)
    · exact applyOps_wild_nodup _ _ h

/-! ### The broadcast loop -/

theorem phase_nil (env : Env) (emitE : St → JsVal → Option St × List Entry)
    (wrap : JsVal → JsVal) (arg : Arg) (d : Nat) (st : St) :
    phase env emitE wrap arg d [] st = (some st, []) := rfl

theorem phase_cons (env : Env) (emitE : St → JsVal → Option St × List Entry)
    (wrap : JsVal → JsVal) (arg : Arg) (d : Nat) (x : Nat) (rest : List Nat) (st : St) :
    phase env emitE wrap arg d (x :: rest) st =
      match invoke env d arg x st with
      | (es, none, st1) =>
        ((phase env emitE wrap arg d rest st1).1,
          es ++ (phase env emitE wrap arg d rest st1).2)
      | (es, some v, st1) =>
        match emitE st1 (wrap v) with
        | (none, le) => (none, es ++ le)
        | (some st2, le) =>
          ((phase env emitE wrap arg d rest st2).1,
            es ++ le ++ (phase env emitE wrap arg d rest st2).2) := rfl

theorem phase_entry {env : Env} {emitE : St → JsVal → Option St × List Entry}
    {wrap : JsVal → JsVal} {arg : Arg} {d : Nat} (P : Entry → Prop)
    (hI : ∀ x st, ∀ e ∈ (invoke env d arg x st).1, P e)
    (hE : ∀ s v, ∀ e ∈ (emitE s v).2, P e) :
    ∀ (ids : List Nat) (st : St), ∀ e ∈ (phase env emitE wrap arg d ids st).2, P e := by
  intro ids
  induction ids with
  | nil => intro st e he; rw [phase_nil] at he; simp at he
  | cons x rest ih =>
    intro st e he
    rw [phase_cons] at he
    rcases hinv : invoke env d arg x st with ⟨es, thr, st1⟩
    rw [hinv] at he
    cases thr with
    | none =>
      dsimp only at he
      rcases List.mem_append.mp he with h1 | h2
      · exact hI x st e (by rw [hinv]; exact h1)
      · exact ih st1 e h2
    | some v =>
      dsimp only at he
      rcases hem : emitE st1 (wrap v) with ⟨oe, le⟩
      rw [hem] at he
      cases oe with
      | none =>
        dsimp only at he
        rcases List.mem_append.mp he with h1 | h2
        · exact hI x st e (by rw [hinv]; exact h1)
        · exact hE st1 (wrap v) e (by rw [hem]; exact h2)
      | some st2 =>
        dsimp only at he
        rcases List.mem_append.mp he with h12 | h3
        · rcases List.mem_append.mp h12 with h1 | h2
          · exact hI x st e (by rw [hinv]; exact h1)
          · exact hE st1 (wrap v) e (by rw [hem]; exact h2)
        · exact ih st2 e h3

theorem phase_mem {env : Env} {emitE : St → JsVal → Option St × List Entry}
    {wrap : JsVal → JsVal} {arg : Arg} {d : Nat} :
    ∀ (ids : List Nat) (st st' : St) (l : List Entry),
      phase env emitE wrap arg d ids st = (some st', l) →
      ∀ x ∈ ids, (⟨x, arg, d⟩ : Entry) ∈ l := by
  intro ids
  induction ids with
  | nil => intro st st' l h y hy; simp at hy
  | cons x rest ih =>
    intro st st' l h y hy
    rw [phase_cons] at h
    rcases hinv : invoke env d arg x st with ⟨es, thr, st1⟩
    rw [hinv] at h
    have hself : (⟨x, arg, d⟩ : Entry) ∈ es := by
      have hm := invoke_self_mem env d arg x st
      rw [hinv] at hm
      exact hm
    cases thr with
    | none =>
      dsimp only at h
      rcases hr : phase env emitE wrap arg d rest st1 with ⟨o, l2⟩
      rw [hr] at h
      dsimp only at h
      injection h with h1 h2
      subst h2
      rw [h1] at hr
      rcases List.mem_cons.mp hy with rfl | hy'
      · exact List.mem_append_left _ hself
      · exact List.mem_append_right _ (ih st1 st' l2 hr _ hy')
    | some v =>
      dsimp only at h
      rcases hem : emitE st1 (wrap v) with ⟨oe, le⟩
      rw [hem] at h
      cases oe with
      | none =>
        dsimp only at h
        exact absurd h (by simp)
      | some st2 =>
        dsimp only at h
        rcases hr : phase env emitE wrap arg d rest st2 with ⟨o, l2⟩
        rw [hr] at h
        dsimp only at h
        injection h with h1 h2
        subst h2
        rw [h1] at hr
        rcases List.mem_cons.mp hy with rfl | hy'
        · exact List.mem_append_left _ (List.mem_append_left _ hself)
        · exact List.mem_append_right _ (ih st2 st' l2 hr _ hy')

end EmitterSpec

namespace EmitterSpec

/-! ### The fuelled emit -/

theorem emitF_zero (env : Env) (d : Nat) (st : St) (ev : String) (p : JsVal) :
    emitF env 0 d st ev p = (none, []) := rfl

theorem emitF_succ (env : Env) (n d : Nat) (st : St) (ev : String) (p : JsVal) :
    emitF env (n + 1) d st ev p =
      match phase env (fun s v => emitF env n (d + 1) s "error" v)
          wrapCat (.catArg p) d (lookupCat st ev) st with
      | (none, l1) => (none, l1)
      | (some st1, l1) =>
        if st1.wild.length > 0 then
          ((phase env (fun s v => emitF env n (d + 1) s "error" v)
              wrapWild (.wildArg ev p) d st1.wild st1).1,
            l1 ++ (phase env (fun s v => emitF env n (d + 1) s "error" v)
              wrapWild (.wildArg ev p) d st1.wild st1).2)
        else (some st1, l1) := rfl

theorem catPhase_def (env : Env) (n d : Nat) (st : St) (ev : String) (p : JsVal) :
    catPhase env n d st ev p =
      phase env (fun s v => emitF env n (d + 1) s "error" v)
        wrapCat (.catArg p) d (lookupCat st ev) st := rfl

/-- Every entry in the log of `emitF … d …` was recorded at depth `d` or
deeper. -/
theorem emitF_depth (env : Env) :
    ∀ n d st ev p, ∀ e ∈ (emitF env n d st ev p).2, d ≤ e.depth := by
  intro n
  induction n with
  | zero => intro d st ev p e he; rw [emitF_zero] at he; simp at he
  | succ n ih =>
    intro d st ev p e he
    rw [emitF_succ] at he
    have hph : ∀ (wrap : JsVal → JsVal) (arg : Arg) (ids : List Nat) (st0 : St),
        ∀ e ∈ (phase env (fun s v => emitF env n (d + 1) s "error" v)
          wrap arg d ids st0).2, d ≤ e.depth := by
      intro wrap arg
      refine phase_entry (fun e => d ≤ e.depth) ?_ ?_
      · intro x st0 e hm
        exact (invoke_entry env d arg x st0 e hm).2 ▸ Nat.le_refl d
      · intro s v e hm
        exact Nat.le_trans (Nat.le_succ d) (ih (d + 1) s "error" v e hm)
    rcases hcp : phase env (fun s v => emitF env n (d + 1) s "error" v)
        wrapCat (.catArg p) d (lookupCat st ev) st with ⟨o1, l1⟩
    rw [hcp] at he
    have hl1 : ∀ e ∈ l1, d ≤ e.depth := by
      intro e hm
      exact hph wrapCat (.catArg p) (lookupCat st ev) st e (by rw [hcp]; exact hm)
    cases o1 with
    | none => exact hl1 e he
    | some st1 =>
      dsimp only at he
      by_cases hw : st1.wild.length > 0
      · rw [if_pos hw] at he
        rcases hwp : phase env (fun s v => emitF env n (d + 1) s "error" v)
            wrapWild (.wildArg ev p) d st1.wild st1 with ⟨o2, l2⟩
        rw [hwp] at he
        dsimp only at he
        rcases List.mem_append.mp he with h1 | h2
        · exact hl1 e h1
        · exact hph wrapWild (.wildArg ev p) st1.wild st1 e (by rw [hwp]; exact h2)
      · rw [if_neg hw] at he
        exact hl1 e he

/-- In a completed loop over plain listeners, the entries recorded at the
loop's own depth are exactly one entry per snapshot element, in snapshot
order. -/
theorem phase_filter {env : Env} {emitE : St → JsVal → Option St × List Entry}
    {wrap : JsVal → JsVal} {arg : Arg} {d : Nat}
    (hplain : plainEnv env)
    (hE : ∀ s v, ∀ e ∈ (emitE s v).2, e.depth ≠ d) :
    ∀ (ids : List Nat) (st st' : St) (l : List Entry),
      phase env emitE wrap arg d ids st = (some st', l) →
      l.filter (fun e => e.depth == d) = ids.map (fun x => (⟨x, arg, d⟩ : Entry)) := by
  intro ids
  induction ids with
  | nil =>
    intro st st' l h
    rw [phase_nil] at h
    injection h with h1 h2
    subst h2
    simp
  | cons x rest ih =>
    intro st st' l h
    rw [phase_cons] at h
    obtain ⟨b, hb⟩ := hplain x
    rw [invoke_plain hb] at h
    rcases hth : b.thrown with _ | v
    · rw [hth] at h
      dsimp only at h
      rcases hr : phase env emitE wrap arg d rest (applyOps b.ops st) with ⟨o, l2⟩
      rw [hr] at h
      dsimp only at h
      injection h with h1 h2
      subst h2
      rw [h1] at hr
      simp only [List.filter_append, List.map_cons]
      rw [ih _ st' l2 hr]
      simp
    · rw [hth] at h
      dsimp only at h
      rcases hem : emitE (applyOps b.ops st) (wrap v) with ⟨oe, le⟩
      rw [hem] at h
      cases oe with
      | none =>
        dsimp only at h
        exact absurd h (by simp)
      | some st2 =>
        dsimp only at h
        rcases hr : phase env emitE wrap arg d rest st2 with ⟨o, l2⟩
        rw [hr] at h
        dsimp only at h
        injection h with h1 h2
        subst h2
        rw [h1] at hr
        have hle : le.filter (fun e => e.depth == d) = [] := by
          rw [List.filter_eq_nil_iff]
          intro e hm
          have := hE (applyOps b.ops st) (wrap v) e (by rw [hem]; exact hm)
          simpa using this
        simp only [List.filter_append, List.map_cons, hle]
        rw [ih _ st' l2 hr]
        simp

/-- A completed loop started from a registry whose wildcard set has no
duplicates ends in one, provided the nested re-emission preserves that. -/
theorem phase_nodup {env : Env} {emitE : St → JsVal → Option St × List Entry}
    {wrap : JsVal → JsVal} {arg : Arg} {d : Nat}
    (hE : ∀ s v s2 l2, emitE s v = (some s2, l2) → s.wild.Nodup → s2.wild.Nodup) :
    ∀ (ids : List Nat) (st st' : St) (l : List Entry),
      phase env emitE wrap arg d ids st = (some st', l) →
      st.wild.Nodup → st'.wild.Nodup := by
  intro ids
  induction ids with
  | nil =>
    intro st st' l h hnd
    rw [phase_nil] at h
    injection h with h1 h2
    injection h1 with h1
    exact h1 ▸ hnd
  | cons x rest ih =>
    intro st st' l h hnd
    rw [phase_cons] at h
    rcases hinv : invoke env d arg x st with ⟨es, thr, st1⟩
    have hnd1 : st1.wild.Nodup := by
      have hm := invoke_wild_nodup env d arg x st hnd
      rw [hinv] at hm
      exact hm
    rw [hinv] at h
    cases thr with
    | none =>
      dsimp only at h
      rcases hr : phase env emitE wrap arg d rest st1 with ⟨o, l2⟩
      rw [hr] at h
      dsimp only at h
      injection h with h1 h2
      rw [h1] at hr
      exact ih st1 st' l2 hr hnd1
    | some v =>
      dsimp only at h
      rcases hem : emitE st1 (wrap v) with ⟨oe, le⟩
      rw [hem] at h
      cases oe with
      | none =>
        dsimp only at h
        exact absurd h (by simp)
      | some st2 =>
        dsimp only at h
        rcases hr : phase env emitE wrap arg d rest st2 with ⟨o, l2⟩
        rw [hr] at h
        dsimp only at h
        injection h with h1 h2
        rw [h1] at hr
        exact ih st2 st' l2 hr (hE st1 (wrap v) st2 le hem hnd1)

/-- A completed emit preserves the wildcard set being duplicate-free. -/
theorem emitF_nodup (env : Env) :
    ∀ n d st ev p st' l, emitF env n d st ev p = (some st', l) →
      st.wild.Nodup → st'.wild.Nodup := by
  intro n
  induction n with
  | zero => intro d st ev p st' l h; rw [emitF_zero] at h; exact absurd h (by simp)
  | succ n ih =>
    intro d st ev p st' l h hnd
    rw [emitF_succ] at h
    have hE : ∀ s v s2 l2, emitF env n (d + 1) s "error" v = (some s2, l2) →
        s.wild.Nodup → s2.wild.Nodup := by
      intro s v s2 l2 hm
      exact ih (d + 1) s "error" v s2 l2 hm
    rcases hcp : phase env (fun s v => emitF env n (d + 1) s "error" v)
        wrapCat (.catArg p) d (lookupCat st ev) st with ⟨o1, l1⟩
    rw [hcp] at h
    cases o1 with
    | none => exact absurd h (by simp)
    | some st1 =>
      have hnd1 : st1.wild.Nodup := phase_nodup hE (lookupCat st ev) st st1 l1 hcp hnd
      dsimp only at h
      by_cases hw : st1.wild.length > 0
      · rw [if_pos hw] at h
        rcases hwp : phase env (fun s v => emitF env n (d + 1) s "error" v)
            wrapWild (.wildArg ev p) d st1.wild st1 with ⟨o2, l2⟩
        rw [hwp] at h
        dsimp only at h
        injection h with h1 h2
        rw [h1] at hwp
        exact phase_nodup hE st1.wild st1 st' l2 hwp hnd1
      · rw [if_neg hw] at h
        injection h with h1 h2
        injection h1 with h1
        exact h1 ▸ hnd1

end EmitterSpec

namespace EmitterSpec

/-- Master description of a completed root emit over plain listeners: the
entries of the root emission (depth 0) are exactly the category snapshot
taken from the state `emit` was entered in, in order, followed by the
wildcard set as it stands after the category loop, in order. -/
theorem emitF_filter {env : Env} (hplain : plainEnv env)
    (n : Nat) (st : St) (ev : String) (p : JsVal) (st' : St) (l : List Entry)
    (h : emitF env (n + 1) 0 st ev p = (some st', l)) :
    ∃ st1 l1, catPhase env n 0 st ev p = (some st1, l1) ∧
      l.filter (fun e => e.depth == 0) =
        (lookupCat st ev).map (fun x => (⟨x, .catArg p, 0⟩ : Entry)) ++
          st1.wild.map (fun x => (⟨x, .wildArg ev p, 0⟩ : Entry)) := by
  rw [emitF_succ] at h
  have hE : ∀ s v, ∀ e ∈ (emitF env n (0 + 1) s "error" v).2, e.depth ≠ 0 := by
    intro s v e hm
    have h1 := emitF_depth env n (0 + 1) s "error" v e hm
    omega
  rcases hcp : phase env (fun s v => emitF env n (0 + 1) s "error" v)
      wrapCat (.catArg p) 0 (lookupCat st ev) st with ⟨o1, l1⟩
  rw [hcp] at h
  cases o1 with
  | none => exact absurd h (by simp)
  | some st1 =>
    refine ⟨st1, l1, by rw [catPhase_def, hcp], ?_⟩
    have hl1 : l1.filter (fun e => e.depth == 0) =
        (lookupCat st ev).map (fun x => (⟨x, .catArg p, 0⟩ : Entry)) :=
      phase_filter hplain hE (lookupCat st ev) st st1 l1 hcp
    dsimp only at h
    by_cases hw : st1.wild.length > 0
    · rw [if_pos hw] at h
      rcases hwp : phase env (fun s v => emitF env n (0 + 1) s "error" v)
          wrapWild (.wildArg ev p) 0 st1.wild st1 with ⟨o2, l2⟩
      rw [hwp] at h
      dsimp only at h
      injection h with h1 h2
      subst h2
      rw [h1] at hwp
      have hl2 : l2.filter (fun e => e.depth == 0) =
          st1.wild.map (fun x => (⟨x, .wildArg ev p, 0⟩ : Entry)) :=
        phase_filter hplain hE st1.wild st1 st' l2 hwp
      rw [List.filter_append, hl1, hl2]
    · rw [if_neg hw] at h
      injection h with h1 h2
      subst h2
      have h0 : st1.wild.length = 0 := by omega
      have hwnil : st1.wild = [] := List.length_eq_zero.mp h0
      rw [hl1, hwnil]
      simp

/-! ### Lookup lemmas -/

theorem lookupIn_catsAdd (cs : List (String × List Nat)) (c : String) (x : Nat) :
    lookupIn (catsAdd cs c x) c = addUnique (lookupIn cs c) x := by
  induction cs with
  | nil => simp [catsAdd, lookupIn, List.find?, addUnique]
  | cons e rest ih =>
    rcases e with ⟨k, s⟩
    by_cases hk : k = c
    · subst hk
      simp [catsAdd, lookupIn, List.find?]
    · simp only [catsAdd, if_neg hk]
      have hkc : ((k, s).1 == c) = false := by simpa using hk
      simp only [lookupIn, List.find?, hkc]
      exact ih

theorem lookupIn_catsDel (cs : List (String × List Nat)) (c : String) (x : Nat) :
    lookupIn (catsDel cs c x) c = (lookupIn cs c).erase x := by
  induction cs with
  | nil => simp [catsDel, lookupIn, List.find?]
  | cons e rest ih =>
    rcases e with ⟨k, s⟩
    by_cases hk : k = c
    · subst hk
      simp [catsDel, lookupIn, List.find?]
    · simp only [catsDel, if_neg hk]
      have hkc : ((k, s).1 == c) = false := by simpa using hk
      simp only [lookupIn, List.find?, hkc]
      exact ih

theorem lookupCat_on' {c : String} (hc : c ≠ "*") (x : Nat) (st : St) :
    lookupCat (on' c x st) c = addUnique (lookupCat st c) x := by
  unfold on' lookupCat
  rw [if_neg hc]
  exact lookupIn_catsAdd st.cats c x

theorem lookupCat_off {c : String} (hc : c ≠ "*") (x : Nat) (st : St) :
    lookupCat (off c x st) c = (lookupCat st c).erase x := by
  unfold off lookupCat
  rw [if_neg hc]
  exact lookupIn_catsDel st.cats c x

theorem wild_on' {c : String} (hc : c ≠ "*") (x : Nat) (st : St) :
    (on' c x st).wild = st.wild := by
  unfold on'
  rw [if_neg hc]

theorem catsAdd_idem (cs : List (String × List Nat)) (c : String) (x : Nat) :
    catsAdd (catsAdd cs c x) c x = catsAdd cs c x := by
  induction cs with
  | nil =>
    have h1 : addUnique [x] x = [x] := addUnique_of_mem (by simp)
    simp [catsAdd, h1]
  | cons e rest ih =>
    rcases e with ⟨k, s⟩
    by_cases hk : k = c
    · subst hk
      simp [catsAdd, addUnique_of_mem (addUnique_mem_self s x)]
    · simp [catsAdd, if_neg hk, ih]

end EmitterSpec

namespace EmitterSpec

/-- In `stLoop` the sole `error` listener always throws, so an `error`
emission re-enters `emit('error', …)` at every depth: no amount of fuel
completes the run, and only listener 9 ever appears in the log. -/
theorem errorLoop_diverges :
    ∀ n d p, (emitF envLoop n d stLoop "error" p).1 = none ∧
      ∀ e ∈ (emitF envLoop n d stLoop "error" p).2, e.id = 9 := by
  intro n
  induction n with
  | zero =>
    intro d p
    exact ⟨rfl, by intro e he; rw [emitF_zero] at he; simp at he⟩
  | succ n ih =>
    intro d p
    have hl : lookupCat stLoop "error" = [9] := by decide
    have hb : envLoop 9 = .plain ⟨[], some (.vstr "always fails")⟩ := by decide
    have hinv : invoke envLoop d (.catArg p) 9 stLoop =
        ([⟨9, .catArg p, d⟩], some (.vstr "always fails"), stLoop) := by
      rw [invoke_plain hb]
      rfl
    rw [emitF_succ, hl, phase_cons, hinv]
    dsimp only
    rcases hrec : emitF envLoop n (d + 1) stLoop "error"
        (wrapCat (.vstr "always fails")) with ⟨oe, le⟩
    have hoe : oe = none := by
      have h1 := (ih (d + 1) (wrapCat (.vstr "always fails"))).1
      rw [hrec] at h1
      exact h1
    have hle : ∀ e ∈ le, e.id = 9 := by
      have h2 := (ih (d + 1) (wrapCat (.vstr "always fails"))).2
      rw [hrec] at h2
      exact h2
    subst hoe
    dsimp only
    refine ⟨rfl, ?_⟩
    intro e he
    rw [List.singleton_append] at he
    rcases List.mem_cons.mp he with rfl | he'
    · rfl
    · exact hle e he'

end EmitterSpec

namespace EmitterSpec

theorem lookupIn_cons_ne {k c : String} (hk : k ≠ c) (s : List Nat)
    (rest : List (String × List Nat)) :
    lookupIn ((k, s) :: rest) c = lookupIn rest c := by
  have hkc : ((k, s).1 == c) = false := by simpa using hk
  simp [lookupIn, List.find?, hkc]

theorem catsDel_of_not_mem {cs : List (String × List Nat)} {c : String} {x : Nat}
    (h : x ∉ lookupIn cs c) : catsDel cs c x = cs := by
  induction cs with
  | nil => rfl
  | cons e rest ih =>
    rcases e with ⟨k, s⟩
    by_cases hk : k = c
    · subst hk
      have hs : x ∉ s := by
        have hlook : lookupIn ((k, s) :: rest) k = s := by simp [lookupIn, List.find?]
        rw [hlook] at h
        exact h
      simp [catsDel, List.erase_of_not_mem hs]
    · rw [lookupIn_cons_ne hk] at h
      simp [catsDel, hk, ih h]

/-- A completed root emit hands the payload to every listener of the
category snapshot and the category/payload pair to every listener of the
post-category wildcard set. -/
theorem emitF_delivers (env : Env) (n : Nat) (st : St) (ev : String) (p : JsVal)
    (st' : St) (l : List Entry)
    (h : emitF env (n + 1) 0 st ev p = (some st', l)) :
    (∀ x ∈ lookupCat st ev, (⟨x, .catArg p, 0⟩ : Entry) ∈ l) ∧
      (∀ x ∈ wildAfter env n st ev p, (⟨x, .wildArg ev p, 0⟩ : Entry) ∈ l) := by
  rw [emitF_succ] at h
  rcases hcp : phase env (fun s v => emitF env n (0 + 1) s "error" v)
      wrapCat (.catArg p) 0 (lookupCat st ev) st with ⟨o1, l1⟩
  rw [hcp] at h
  cases o1 with
  | none => exact absurd h (by simp)
  | some st1 =>
    have hwa : wildAfter env n st ev p = st1.wild := by
      unfold wildAfter
      rw [catPhase_def, hcp]
    dsimp only at h
    by_cases hw : st1.wild.length > 0
    · rw [if_pos hw] at h
      rcases hwp : phase env (fun s v => emitF env n (0 + 1) s "error" v)
          wrapWild (.wildArg ev p) 0 st1.wild st1 with ⟨o2, l2⟩
      rw [hwp] at h
      dsimp only at h
      injection h with h1 h2
      subst h2
      rw [h1] at hwp
      constructor
      · intro x hx
        exact List.mem_append_left _ (phase_mem (lookupCat st ev) st st1 l1 hcp x hx)
      · intro x hx
        rw [hwa] at hx
        exact List.mem_append_right _ (phase_mem st1.wild st1 st' l2 hwp x hx)
    · rw [if_neg hw] at h
      injection h with h1 h2
      subst h2
      have h0 : st1.wild.length = 0 := by omega
      have hnil : st1.wild = [] := List.length_eq_zero.mp h0
      constructor
      · intro x hx
        exact phase_mem (lookupCat st ev) st st1 l1 hcp x hx
      · intro x hx
        rw [hwa, hnil] at hx
        simp at hx

theorem envMutW_plain : plainEnv envMutW := by
  intro x
  unfold envMutW
  split
  · exact ⟨_, rfl⟩
  · exact ⟨_, rfl⟩

theorem envQuiet_plain : plainEnv envQuiet := fun _ => ⟨_, rfl⟩

/-! ### The claims -/

/-- C1, counterexample.  In `stC1` listener 7 is a registered wildcard
listener when `emit("c", 0)` begins.  With `envC1b` (no listener throws) 7
receives the emission; with `envC1a` — identical except that category
listener 1 throws, upon which the `error` listener unsubscribes 7 — the
emit completes but 7 is never invoked.  So a throwing listener does change
how the wildcard listeners are invoked relative to the no-throw run,
because the source only snapshots the wildcard set after the category loop
and the nested `error` re-emission has mutated it by then. -/
theorem c1_counterexample_throw_changes_wildcard_delivery :
    7 ∈ stC1.wild ∧
    (⟨7, .wildArg "c" (.vnum 0), 0⟩ : Entry) ∈ (emitF envC1b 3 0 stC1 "c" (.vnum 0)).2 ∧
    (emitF envC1a 3 0 stC1 "c" (.vnum 0)).1.isSome = true ∧
    (⟨7, .wildArg "c" (.vnum 0), 0⟩ : Entry) ∉ (emitF envC1a 3 0 stC1 "c" (.vnum 0)).2 := by
  decide

/-- C1, amended.  For a root emit that completes, a thrown fault is caught
(the call returns normally) and delivery proceeds: every listener of the
category snapshot receives the payload, and every listener of the wildcard
set as it stands after the category loop receives the pair — though that
wildcard set may differ from the one at emit entry if the `error`
re-emission mutated it. -/
theorem c1_fault_isolation (env : Env) (n : Nat) (st : St) (ev : String)
    (p : JsVal) (st' : St) (l : List Entry)
    (h : emitF env (n + 1) 0 st ev p = (some st', l)) :
    (∀ x ∈ lookupCat st ev, (⟨x, .catArg p, 0⟩ : Entry) ∈ l) ∧
      (∀ x ∈ wildAfter env n st ev p, (⟨x, .wildArg ev p, 0⟩ : Entry) ∈ l) :=
  emitF_delivers env n st ev p st' l h

theorem c1_fault_isolation_witness :
    (⟨2, .catArg (.vnum 0), 0⟩ : Entry) ∈ (emitF envIso 3 0 stIso "c" (.vnum 0)).2 ∧
    (⟨5, .wildArg "c" (.vnum 0), 0⟩ : Entry) ∈ (emitF envIso 3 0 stIso "c" (.vnum 0)).2 := by
  have h : emitF envIso 3 0 stIso "c" (.vnum 0) =
      (some stIso,
        [⟨1, .catArg (.vnum 0), 0⟩,
         ⟨9, .catArg (.verr "An error occurred in a listener."), 1⟩,
         ⟨5, .wildArg "error" (.verr "An error occurred in a listener."), 1⟩,
         ⟨2, .catArg (.vnum 0), 0⟩,
         ⟨5, .wildArg "c" (.vnum 0), 0⟩]) := by decide
  have hiso := c1_fault_isolation envIso 2 stIso "c" (.vnum 0) stIso _ h
  rw [h]
  exact ⟨hiso.1 2 (by decide), hiso.2 5 (by decide)⟩

/-- C2, counterexample.  The wildcard set is empty when `emit("c", 5)`
begins; category listener 1 subscribes wildcard listener 7 during its own
invocation, and 7 nevertheless receives this same emission — so the
wildcard recipients are not fixed by a snapshot taken before any listener
runs. -/
theorem c2_counterexample_mid_emission_wildcard_subscribe :
    stMutW.wild = [] ∧
    (⟨7, .wildArg "c" (.vnum 5), 0⟩ : Entry) ∈ (emitF envMutW 2 0 stMutW "c" (.vnum 5)).2 := by
  decide

/-- C2, amended.  For a completed root emit over plain listeners: the
category recipients are snapshotted from the registry as it was when
`emit` was entered (mutations during the emission cannot change them), but
the wildcard recipients are the wildcard set as it stands only after the
whole category loop — listeners of this very emission can still change
it. -/
theorem c2_snapshot_delivery (env : Env) (n : Nat) (st : St) (ev : String)
    (p : JsVal) (st' : St) (l : List Entry) (hplain : plainEnv env)
    (h : emitF env (n + 1) 0 st ev p = (some st', l)) :
    ∃ st1 l1, catPhase env n 0 st ev p = (some st1, l1) ∧
      l.filter (fun e => e.depth == 0) =
        (lookupCat st ev).map (fun x => (⟨x, .catArg p, 0⟩ : Entry)) ++
          st1.wild.map (fun x => (⟨x, .wildArg ev p, 0⟩ : Entry)) :=
  emitF_filter hplain n st ev p st' l h

theorem c2_snapshot_delivery_witness :
    ∃ st1 l1, catPhase envMutW 1 0 stMutW "c" (.vnum 5) = (some st1, l1) ∧
      (([⟨1, .catArg (.vnum 5), 0⟩, ⟨7, .wildArg "c" (.vnum 5), 0⟩] : List Entry).filter
          (fun e => e.depth == 0)) =
        (lookupCat stMutW "c").map (fun x => (⟨x, .catArg (.vnum 5), 0⟩ : Entry)) ++
          st1.wild.map (fun x => (⟨x, .wildArg "c" (.vnum 5), 0⟩ : Entry)) :=
  c2_snapshot_delivery envMutW 1 stMutW "c" (.vnum 5) ⟨[("c", [1])], [7]⟩
    [⟨1, .catArg (.vnum 5), 0⟩, ⟨7, .wildArg "c" (.vnum 5), 0⟩]
    envMutW_plain (by decide)

/-- C3 shows a code bug: `once("x", L)` registers wrapper 10 around listener
11, and L throws on its first invocation.  The wrapper's self-removal is
sequenced after the inner call, so the throw skips it: the first emit
leaves the registry unchanged (`getListenerCount "x" = 1` still counts the
wrapper) and a second emit invokes L again — against both the spec and the
method's own doc comment ("called at most once"). -/
theorem c3_once_wrapper_survives_throw :
    emitF envOnce 2 0 stOnce "x" (.vnum 1) =
      (some stOnce, [⟨10, .catArg (.vnum 1), 0⟩, ⟨11, .catArg (.vnum 1), 0⟩]) ∧
    getListenerCount "x" stOnce = 1 ∧
    (⟨11, .catArg (.vnum 2), 0⟩ : Entry) ∈ (emitF envOnce 2 0 stOnce "x" (.vnum 2)).2 := by
  decide

/-- C5 shows a code bug: the source re-emits `error` from the catch block
with no recursion guard, so with an always-throwing `error` listener the
nested re-emission recurses at every depth; no fuel bound completes
`emit("error", …)`, i.e. the call never returns (in the real runtime: stack
exhaustion), where the spec asks for the re-routing to be dropped after one
hop. -/
theorem c5_error_listener_fault_recurses_unboundedly :
    ∀ n, (emitF envLoop n 0 stLoop "error" (.verr "boom")).1 = none :=
  fun n => (errorLoop_diverges n 0 (.verr "boom")).1

end EmitterSpec

namespace EmitterSpec

/-- C4, counterexample.  Listener 4 throws the non-Error values 0 and 1 in
two otherwise identical runs; the `error` listener receives the very same
generic payload (`Error('An error occurred in a listener.')`) in both, so
the re-emitted error value does not carry the caught fault. -/
theorem c4_counterexample_fault_not_carried :
    (emitF envFault0 3 0 stFault "z" .vundef).2 = (emitF envFault1 3 0 stFault "z" .vundef).2 ∧
    JsVal.vnum 0 ≠ JsVal.vnum 1 ∧
    (⟨5, .catArg (.verr "An error occurred in a listener."), 1⟩ : Entry) ∈
      (emitF envFault0 3 0 stFault "z" .vundef).2 := by
  decide

theorem off_star (x : Nat) (st : St) :
    off "*" x st = { st with wild := st.wild.erase x } := by
  simp [off]

/-- C4, amended, covering both catch blocks.  Scenario C: category listener
`a` throws `v`; the re-emission runs through the full emit path — the
`error` listener `e` and the wildcard listener `w2` both receive it at
depth 1, with payload `wrapCat v` — after which the root emission's own
wildcard delivery still happens.  Scenario W: wildcard listener `w` throws
`u`; the wildcard catch block re-emits `wrapWild u` through the full emit
path, reaching `e` and the surviving wildcard listener `w2` at depth 1 (in
that scenario `e` unsubscribes the throwing `w`, which is what lets the run
terminate).  In both: the payload is the caught fault itself when it is an
Error, and otherwise a fresh generic Error whose fixed message — one per
catch block — is independent of the fault. -/
theorem c4_error_event_payload (env : Env) (stC stW : St) (ev : String)
    (p v u : JsVal) (a e w w2 : Nat)
    (hba : env a = .plain ⟨[], some v⟩)
    (hbe : env e = .plain ⟨[.roff "*" w], none⟩)
    (hbw : env w = .plain ⟨[], some u⟩)
    (hbw2 : env w2 = .plain ⟨[], none⟩)
    (hww2 : w ≠ w2)
    (hCa : lookupCat stC ev = [a])
    (hCe : lookupCat stC "error" = [e])
    (hCwild : stC.wild = [w2])
    (hWa : lookupCat stW ev = [])
    (hWe : lookupCat stW "error" = [e])
    (hWwild : stW.wild = [w, w2]) :
    emitF env 3 0 stC ev p =
      (some stC,
        [⟨a, .catArg p, 0⟩, ⟨e, .catArg (wrapCat v), 1⟩,
         ⟨w2, .wildArg "error" (wrapCat v), 1⟩, ⟨w2, .wildArg ev p, 0⟩]) ∧
    emitF env 3 0 stW ev p =
      (some ⟨stW.cats, [w2]⟩,
        [⟨w, .wildArg ev p, 0⟩, ⟨e, .catArg (wrapWild u), 1⟩,
         ⟨w2, .wildArg "error" (wrapWild u), 1⟩, ⟨w2, .wildArg ev p, 0⟩]) ∧
    (isError v = true → wrapCat v = v) ∧
    (isError v = false → wrapCat v = .verr "An error occurred in a listener.") ∧
    (isError u = true → wrapWild u = u) ∧
    (isError u = false → wrapWild u = .verr "An error occurred in a wildcard listener.") := by
  have hw2mem : w ∉ ([w2] : List Nat) := by simp [hww2]
  have hoffC : applyOps [RegOp.roff "*" w] stC = stC := by
    simp only [applyOps, List.foldl_cons, List.foldl_nil, applyOp]
    rw [off_star, hCwild, List.erase_of_not_mem hw2mem, ← hCwild]
  have hinnerC : emitF env 2 (0 + 1) stC "error" (wrapCat v) =
      (some stC, [⟨e, .catArg (wrapCat v), 0 + 1⟩,
        ⟨w2, .wildArg "error" (wrapCat v), 0 + 1⟩]) := by
    simp only [show (2 : Nat) = 1 + 1 from rfl]
    rw [emitF_succ, hCe, phase_cons, invoke_plain hbe]
    dsimp only
    rw [hoffC, phase_nil]
    dsimp only
    rw [hCwild, if_pos (by simp : ([w2] : List Nat).length > 0)]
    rw [phase_cons, invoke_plain hbw2]
    dsimp only
    simp only [applyOps, List.foldl_nil]
    rw [phase_nil]
    dsimp only
    simp
  have hrootC : emitF env 3 0 stC ev p =
      (some stC,
        [⟨a, .catArg p, 0⟩, ⟨e, .catArg (wrapCat v), 1⟩,
         ⟨w2, .wildArg "error" (wrapCat v), 1⟩, ⟨w2, .wildArg ev p, 0⟩]) := by
    simp only [show (3 : Nat) = 2 + 1 from rfl]
    rw [emitF_succ, hCa, phase_cons, invoke_plain hba]
    dsimp only
    simp only [applyOps, List.foldl_nil]
    rw [hinnerC]
    dsimp only
    rw [phase_nil]
    dsimp only
    rw [hCwild, if_pos (by simp : ([w2] : List Nat).length > 0)]
    rw [phase_cons, invoke_plain hbw2]
    dsimp only
    simp only [applyOps, List.foldl_nil]
    rw [phase_nil]
    dsimp only
    simp
  have hstW' : applyOps [RegOp.roff "*" w] stW = ⟨stW.cats, [w2]⟩ := by
    simp only [applyOps, List.foldl_cons, List.foldl_nil, applyOp]
    rw [off_star, hWwild, List.erase_cons_head]
  have hinnerW : emitF env 2 (0 + 1) stW "error" (wrapWild u) =
      (some ⟨stW.cats, [w2]⟩, [⟨e, .catArg (wrapWild u), 0 + 1⟩,
        ⟨w2, .wildArg "error" (wrapWild u), 0 + 1⟩]) := by
    simp only [show (2 : Nat) = 1 + 1 from rfl]
    rw [emitF_succ, hWe, phase_cons, invoke_plain hbe]
    dsimp only
    rw [hstW', phase_nil]
    dsimp only
    rw [if_pos (by simp : ([w2] : List Nat).length > 0)]
    rw [phase_cons, invoke_plain hbw2]
    dsimp only
    simp only [applyOps, List.foldl_nil]
    rw [phase_nil]
    dsimp only
    simp
  have hrootW : emitF env 3 0 stW ev p =
      (some ⟨stW.cats, [w2]⟩,
        [⟨w, .wildArg ev p, 0⟩, ⟨e, .catArg (wrapWild u), 1⟩,
         ⟨w2, .wildArg "error" (wrapWild u), 1⟩, ⟨w2, .wildArg ev p, 0⟩]) := by
    simp only [show (3 : Nat) = 2 + 1 from rfl]
    rw [emitF_succ, hWa, phase_nil]
    dsimp only
    rw [hWwild, if_pos (by simp : ([w, w2] : List Nat).length > 0)]
    rw [phase_cons, invoke_plain hbw]
    dsimp only
    simp only [applyOps, List.foldl_nil]
    rw [hinnerW]
    dsimp only
    rw [phase_cons, invoke_plain hbw2]
    dsimp only
    simp only [applyOps, List.foldl_nil]
    rw [phase_nil]
    dsimp only
    simp
  exact ⟨hrootC, hrootW,
    fun hv => by simp [wrapCat, hv],
    fun hv => by simp [wrapCat, hv],
    fun hu => by simp [wrapWild, hu],
    fun hu => by simp [wrapWild, hu]⟩

theorem c4_error_event_payload_witness :
    emitF envFaultB 3 0 stC4 "z" .vundef =
      (some stC4,
        [⟨4, .catArg .vundef, 0⟩, ⟨5, .catArg (wrapCat (.vnum 7)), 1⟩,
         ⟨21, .wildArg "error" (wrapCat (.vnum 7)), 1⟩,
         ⟨21, .wildArg "z" .vundef, 0⟩]) ∧
    emitF envFaultB 3 0 stW4 "z" .vundef =
      (some ⟨stW4.cats, [21]⟩,
        [⟨20, .wildArg "z" .vundef, 0⟩,
         ⟨5, .catArg (wrapWild (.verr "wild boom")), 1⟩,
         ⟨21, .wildArg "error" (wrapWild (.verr "wild boom")), 1⟩,
         ⟨21, .wildArg "z" .vundef, 0⟩]) ∧
    (isError (.vnum 7) = true → wrapCat (.vnum 7) = .vnum 7) ∧
    (isError (.vnum 7) = false →
      wrapCat (.vnum 7) = .verr "An error occurred in a listener.") ∧
    (isError (.verr "wild boom") = true →
      wrapWild (.verr "wild boom") = .verr "wild boom") ∧
    (isError (.verr "wild boom") = false →
      wrapWild (.verr "wild boom") = .verr "An error occurred in a wildcard listener.") :=
  c4_error_event_payload envFaultB stC4 stW4 "z" .vundef (.vnum 7)
    (.verr "wild boom") 4 5 20 21
    (by decide) (by decide) (by decide) (by decide) (by decide) (by decide)
    (by decide) (by decide) (by decide) (by decide) (by decide)

/-- C6.  For a completed root emit over plain listeners whose wildcard set
has no duplicates: the root emission's own invocations are exactly the
category snapshot (in registration order, hence each category listener once,
in order), followed by the post-category wildcard set, so every category
listener fires before any wildcard listener of this emission, and each
wildcard listener fires exactly once — also when the category has no
listeners at all. -/
theorem c6_delivery_order (env : Env) (n : Nat) (st : St) (ev : String)
    (p : JsVal) (st' : St) (l : List Entry) (hplain : plainEnv env)
    (hnd : st.wild.Nodup)
    (h : emitF env (n + 1) 0 st ev p = (some st', l)) :
    ∃ st1 l1, catPhase env n 0 st ev p = (some st1, l1) ∧
      l.filter (fun e => e.depth == 0) =
        (lookupCat st ev).map (fun x => (⟨x, .catArg p, 0⟩ : Entry)) ++
          st1.wild.map (fun x => (⟨x, .wildArg ev p, 0⟩ : Entry)) ∧
      ∀ w ∈ st1.wild,
        (l.filter (fun e => e.depth == 0)).count (⟨w, .wildArg ev p, 0⟩ : Entry) = 1 := by
  obtain ⟨st1, l1, hcp, hfilter⟩ := emitF_filter hplain n st ev p st' l h
  have hnd1 : st1.wild.Nodup := by
    have hE : ∀ s v s2 l2, emitF env n (0 + 1) s "error" v = (some s2, l2) →
        s.wild.Nodup → s2.wild.Nodup :=
      fun s v s2 l2 hm => emitF_nodup env n (0 + 1) s "error" v s2 l2 hm
    have hcp' := hcp
    rw [catPhase_def] at hcp'
    exact phase_nodup hE (lookupCat st ev) st st1 l1 hcp' hnd
  refine ⟨st1, l1, hcp, hfilter, ?_⟩
  intro w hw
  rw [hfilter, List.count_append]
  have hA : ((lookupCat st ev).map (fun x => (⟨x, .catArg p, 0⟩ : Entry))).count
      (⟨w, .wildArg ev p, 0⟩ : Entry) = 0 := by
    rw [List.count_eq_zero]
    intro hmem
    rcases List.mem_map.mp hmem with ⟨y, _, hEq⟩
    have harg := congrArg Entry.arg hEq
    simp at harg
  have hinj : Function.Injective (fun x => (⟨x, .wildArg ev p, 0⟩ : Entry)) := by
    intro a b hab
    simpa using hab
  have hB : (st1.wild.map (fun x => (⟨x, .wildArg ev p, 0⟩ : Entry))).count
      (⟨w, .wildArg ev p, 0⟩ : Entry) = st1.wild.count w :=
    List.count_map_of_injective st1.wild _ hinj w
  rw [hA, hB, List.count_eq_one_of_mem hnd1 hw]

theorem c6_delivery_order_witness :
    ∃ st1 l1, catPhase envQuiet 1 0 stPing "ping" (.vnum 5) = (some st1, l1) ∧
      (([⟨1, .catArg (.vnum 5), 0⟩, ⟨2, .catArg (.vnum 5), 0⟩,
          ⟨8, .wildArg "ping" (.vnum 5), 0⟩, ⟨9, .wildArg "ping" (.vnum 5), 0⟩] :
            List Entry).filter (fun e => e.depth == 0)) =
        (lookupCat stPing "ping").map (fun x => (⟨x, .catArg (.vnum 5), 0⟩ : Entry)) ++
          st1.wild.map (fun x => (⟨x, .wildArg "ping" (.vnum 5), 0⟩ : Entry)) ∧
      ∀ w ∈ st1.wild,
        (([⟨1, .catArg (.vnum 5), 0⟩, ⟨2, .catArg (.vnum 5), 0⟩,
            ⟨8, .wildArg "ping" (.vnum 5), 0⟩, ⟨9, .wildArg "ping" (.vnum 5), 0⟩] :
              List Entry).filter (fun e => e.depth == 0)).count
          (⟨w, .wildArg "ping" (.vnum 5), 0⟩ : Entry) = 1 :=
  c6_delivery_order envQuiet 1 stPing "ping" (.vnum 5) stPing
    [⟨1, .catArg (.vnum 5), 0⟩, ⟨2, .catArg (.vnum 5), 0⟩,
      ⟨8, .wildArg "ping" (.vnum 5), 0⟩, ⟨9, .wildArg "ping" (.vnum 5), 0⟩]
    envQuiet_plain (by decide) (by decide)

/-- C7.  Registering the same listener twice for the same category leaves
the registry exactly as a single registration; with the listener alone on
the category the count is 1 and an emit of that category invokes it exactly
once. -/
theorem c7_duplicate_registration_noop (c : String) (x : Nat) (st : St) :
    on' c x (on' c x st) = on' c x st ∧
    getListenerCount c (on' c x emptySt) = 1 ∧
    (∀ (env : Env) (p : JsVal), env x = Behavior.plain ⟨[], none⟩ → c ≠ "*" →
      (emitF env 2 0 (on' c x emptySt) c p).2 = [⟨x, .catArg p, 0⟩]) := by
  refine ⟨?_, ?_, ?_⟩
  · by_cases hc : c = "*"
    · simp [on', hc, addUnique_of_mem (addUnique_mem_self st.wild x)]
    · simp [on', hc, catsAdd_idem]
  · by_cases hc : c = "*"
    · simp [on', hc, getListenerCount, emptySt, addUnique]
    · have hl : lookupCat (on' c x emptySt) c = [x] := by
        rw [lookupCat_on' hc]
        simp [emptySt, lookupCat, lookupIn, List.find?, addUnique]
      simp [getListenerCount, hc, hl]
  · intro env p hx hc
    have hl : lookupCat (on' c x emptySt) c = [x] := by
      rw [lookupCat_on' hc]
      simp [emptySt, lookupCat, lookupIn, List.find?, addUnique]
    have hwild : (on' c x emptySt).wild = [] := by
      rw [wild_on' hc]
      rfl
    simp only [show (2 : Nat) = 1 + 1 from rfl]
    rw [emitF_succ, hl, phase_cons, invoke_plain hx]
    dsimp only
    simp only [applyOps, List.foldl_nil]
    rw [phase_nil]
    dsimp only
    rw [hwild]
    simp

/-- C8.  Removing a registered listener decreases the category's count by
exactly one and the root emission no longer invokes it (over plain
listeners, with the duplicate-free registry that the dispatcher maintains);
removing an absent listener — unknown category included — is a no-op on the
whole registry and raises nothing. -/
theorem c8_off_removes (c : String) (x : Nat) (st : St) :
    (registered c x st → getListenerCount c (off c x st) + 1 = getListenerCount c st) ∧
    (¬ registered c x st → off c x st = st) ∧
    (∀ (env : Env) (n : Nat) (p : JsVal) (st' : St) (l : List Entry), plainEnv env →
      (lookupCat st c).Nodup → c ≠ "*" →
      emitF env (n + 1) 0 (off c x st) c p = (some st', l) →
      (⟨x, .catArg p, 0⟩ : Entry) ∉ l.filter (fun e => e.depth == 0)) := by
  refine ⟨?_, ?_, ?_⟩
  · intro hreg
    unfold registered at hreg
    by_cases hc : c = "*"
    · rw [if_pos hc] at hreg
      subst hc
      simp only [off, getListenerCount, if_pos]
      rw [List.length_erase_of_mem hreg]
      have := List.length_pos_of_mem hreg
      omega
    · rw [if_neg hc] at hreg
      simp only [getListenerCount, if_neg hc]
      rw [lookupCat_off hc, List.length_erase_of_mem hreg]
      have := List.length_pos_of_mem hreg
      omega
  · intro hnreg
    unfold registered at hnreg
    by_cases hc : c = "*"
    · rw [if_pos hc] at hnreg
      subst hc
      simp [off, List.erase_of_not_mem hnreg]
    · rw [if_neg hc] at hnreg
      simp only [off, if_neg hc]
      rw [catsDel_of_not_mem hnreg]
  · intro env n p st' l hplain hnd hc h
    obtain ⟨st1, l1, hcp, hfilter⟩ := emitF_filter hplain n (off c x st) c p st' l h
    rw [hfilter]
    intro hmem
    rcases List.mem_append.mp hmem with hA | hB
    · rcases List.mem_map.mp hA with ⟨y, hy, hEq⟩
      have hyx : y = x := by
        have := congrArg Entry.id hEq
        simpa using this
      subst hyx
      rw [lookupCat_off hc] at hy
      exact ((List.Nodup.mem_erase_iff hnd).mp hy).1 rfl
    · rcases List.mem_map.mp hB with ⟨y, _, hEq⟩
      have := congrArg Entry.arg hEq
      simp at this

/-- C9.  In a completed root emit, every wildcard listener of this emission
receives exactly the pair of the emitted category and the emitted payload
value itself: any depth-0 entry carrying a wildcard pair carries precisely
`(ev, p)`, and each listener of the post-category wildcard set gets such an
entry. -/
theorem c9_wildcard_pair (env : Env) (n : Nat) (st : St) (ev : String)
    (p : JsVal) (st' : St) (l : List Entry)
    (h : emitF env (n + 1) 0 st ev p = (some st', l)) :
    (∀ x ∈ wildAfter env n st ev p, (⟨x, .wildArg ev p, 0⟩ : Entry) ∈ l) ∧
    (∀ e ∈ l, e.depth = 0 → ∀ ev' q, e.arg = .wildArg ev' q → ev' = ev ∧ q = p) := by
  refine ⟨(emitF_delivers env n st ev p st' l h).2, ?_⟩
  rw [emitF_succ] at h
  have hE : ∀ s v, ∀ e ∈ (emitF env n (0 + 1) s "error" v).2, e.depth = 0 → False := by
    intro s v e hm hd
    have := emitF_depth env n (0 + 1) s "error" v e hm
    omega
  rcases hcp : phase env (fun s v => emitF env n (0 + 1) s "error" v)
      wrapCat (.catArg p) 0 (lookupCat st ev) st with ⟨o1, l1⟩
  rw [hcp] at h
  have hl1 : ∀ e ∈ l1, e.depth = 0 → e.arg = .catArg p := by
    intro e hm
    exact @phase_entry env (fun s v => emitF env n (0 + 1) s "error" v) wrapCat (.catArg p) 0
      (fun e => e.depth = 0 → e.arg = .catArg p)
      (fun x st0 e2 hm2 _ => (invoke_entry env 0 (.catArg p) x st0 e2 hm2).1)
      (fun s v e2 hm2 hd => (hE s v e2 hm2 hd).elim)
      (lookupCat st ev) st e (by rw [hcp]; exact hm)
  cases o1 with
  | none => exact absurd h (by simp)
  | some st1 =>
    dsimp only at h
    by_cases hw : st1.wild.length > 0
    · rw [if_pos hw] at h
      rcases hwp : phase env (fun s v => emitF env n (0 + 1) s "error" v)
          wrapWild (.wildArg ev p) 0 st1.wild st1 with ⟨o2, l2⟩
      rw [hwp] at h
      dsimp only at h
      injection h with h1 h2
      subst h2
      have hl2 : ∀ e ∈ l2, e.depth = 0 → e.arg = .wildArg ev p := by
        intro e hm
        exact @phase_entry env (fun s v => emitF env n (0 + 1) s "error" v) wrapWild
          (.wildArg ev p) 0 (fun e => e.depth = 0 → e.arg = .wildArg ev p)
          (fun x st0 e2 hm2 _ => (invoke_entry env 0 (.wildArg ev p) x st0 e2 hm2).1)
          (fun s v e2 hm2 hd => (hE s v e2 hm2 hd).elim)
          st1.wild st1 e (by rw [hwp]; exact hm)
      intro e he hd ev' q harg
      rcases List.mem_append.mp he with hm | hm
      · have := hl1 e hm hd
        rw [this] at harg
        exact absurd harg (by simp)
      · have := hl2 e hm hd
        rw [this] at harg
        injection harg with hev hq
        exact ⟨hev.symm, hq.symm⟩
    · rw [if_neg hw] at h
      injection h with h1 h2
      subst h2
      intro e he hd ev' q harg
      have := hl1 e he hd
      rw [this] at harg
      exact absurd harg (by simp)

theorem c9_wildcard_pair_witness :
    (∀ x ∈ wildAfter envQuiet 1 stPing "y" (.vnum 5),
      (⟨x, .wildArg "y" (.vnum 5), 0⟩ : Entry) ∈
        ([⟨8, .wildArg "y" (.vnum 5), 0⟩, ⟨9, .wildArg "y" (.vnum 5), 0⟩] : List Entry)) ∧
    (∀ e ∈ ([⟨8, .wildArg "y" (.vnum 5), 0⟩, ⟨9, .wildArg "y" (.vnum 5), 0⟩] : List Entry),
      e.depth = 0 → ∀ ev' q, e.arg = .wildArg ev' q → ev' = "y" ∧ q = .vnum 5) :=
  c9_wildcard_pair envQuiet 1 stPing "y" (.vnum 5) stPing
    [⟨8, .wildArg "y" (.vnum 5), 0⟩, ⟨9, .wildArg "y" (.vnum 5), 0⟩] (by decide)

/-- C10.  The source guards `removeAllListeners(eventName)` with JS
truthiness, and the empty string is falsy: `removeAllListeners("")` takes
the clear-everything branch, exactly like the no-argument call, after which
every category's count — the wildcard's included — is zero. -/
theorem c10_remove_all_empty_string (st : St) (c : String) :
    removeAllListeners (some "") st = removeAllListeners none st ∧
    getListenerCount c (removeAllListeners (some "") st) = 0 := by
  constructor
  · rfl
  · by_cases hc : c = "*"
    · simp [removeAllListeners, getListenerCount, hc]
    · simp [removeAllListeners, getListenerCount, hc, lookupCat, lookupIn, List.find?]

end EmitterSpec
